import Mathlib

/-!
Verification of the H3 hexagon binning and aggregation pipeline of
`urbanpy/geom/geom.py` — the four core operations `gen_hexagons`,
`merge_shape_hex`, `overlay_polygons_hexs` and `resolution_downsampling`.

The embedding is shallow: a GeoDataFrame is a list of records, and the
external geometry libraries (h3, shapely via geopandas) enter as explicit
function parameters — `polyfill`, `boundary` (for
`utils.geo_boundary_to_polygon`), the spatial-join predicate, `area`,
pairwise `inter`section, and `h3_to_parent`.  The pandas/geopandas plumbing
(`drop_duplicates`, `sjoin` + `groupby` + `.loc` assignment, `overlay` +
`groupby` + `merge`, `groupby` + `agg`) is modelled explicitly.  Geometry is
an arbitrary type `G`; rational numbers stand in for the floats of the
numeric columns.
-/

namespace UrbanPy

/-- Column names of a DataFrame. -/
abbrev ColName := String

/-- H3 hexagon indexes (15-character hexadecimal strings in h3 v3). -/
abbrev HexId := String

/-- Worker for `dropDuplicates`, carrying the set of rows already seen. -/
def dropDuplicatesAux {α : Type} [DecidableEq α] : List α → List α → List α
  | [], _ => []
  | x :: xs, seen =>
    if x ∈ seen then dropDuplicatesAux xs seen
    else x :: dropDuplicatesAux xs (x :: seen)

/-- Model of `pandas.DataFrame.drop_duplicates()`: keeps the first occurrence
of every row and drops later rows equal to an earlier one. -/
def dropDuplicates {α : Type} [DecidableEq α] (l : List α) : List α :=
  dropDuplicatesAux l []

theorem mem_dropDuplicatesAux {α : Type} [DecidableEq α] (a : α) :
    ∀ (l seen : List α),
      a ∈ dropDuplicatesAux l seen ↔ a ∈ l ∧ a ∉ seen := by
  intro l
  induction l with
  | nil => intro seen; simp [dropDuplicatesAux]
  | cons x xs ih =>
    intro seen
    by_cases hx : x ∈ seen
    · simp only [dropDuplicatesAux, if_pos hx, ih, List.mem_cons]
      constructor
      · rintro ⟨h1, h2⟩
        exact ⟨Or.inr h1, h2⟩
      · rintro ⟨h1 | h1, h2⟩
        · exact absurd (h1 ▸ hx) h2
        · exact ⟨h1, h2⟩
    · simp only [dropDuplicatesAux, if_neg hx, List.mem_cons, ih]
      constructor
      · rintro (rfl | ⟨h1, h2⟩)
        · exact ⟨Or.inl rfl, hx⟩
        · refine ⟨Or.inr h1, fun hs => h2 ?_⟩
          simpa [List.mem_cons] using Or.inr hs
      · rintro ⟨h1 | h1, h2⟩
        · exact Or.inl h1
        · by_cases hax : a = x
          · exact Or.inl hax
          · refine Or.inr ⟨h1, fun hs => ?_⟩
            rcases hs with h | h
            · exact hax h
            · exact h2 h

theorem nodup_dropDuplicatesAux {α : Type} [DecidableEq α] :
    ∀ (l seen : List α), (dropDuplicatesAux l seen).Nodup := by
  intro l
  induction l with
  | nil => intro seen; simp [dropDuplicatesAux]
  | cons x xs ih =>
    intro seen
    by_cases hx : x ∈ seen
    · simpa only [dropDuplicatesAux, if_pos hx] using ih seen
    · simp only [dropDuplicatesAux, if_neg hx, List.nodup_cons]
      refine ⟨fun hmem => ?_, ih _⟩
      have := (mem_dropDuplicatesAux x xs (x :: seen)).mp hmem
      exact this.2 (List.mem_cons_self _ _)

theorem mem_dropDuplicates {α : Type} [DecidableEq α] {a : α} {l : List α} :
    a ∈ dropDuplicates l ↔ a ∈ l := by
  simp [dropDuplicates, mem_dropDuplicatesAux]

theorem nodup_dropDuplicates {α : Type} [DecidableEq α] (l : List α) :
    (dropDuplicates l).Nodup :=
  nodup_dropDuplicatesAux l []

/-! ## HexBinner: `gen_hexagons`

Source (`geom.py`, lines 130–181): explode the input region into its
constituent simple polygons, run `h3.polyfill` over each part at the given
resolution, collect one `(hex index, boundary polygon)` row per emitted
hexagon, then `drop_duplicates()`.  No validation of `resolution` is
performed by the source.  `boundary` stands for
`utils.geo_boundary_to_polygon`, a deterministic function of the hex index
alone. -/

def gen_hexagons {G : Type} [DecidableEq G]
    (polyfill : ℤ → G → List HexId) (boundary : HexId → G)
    (explode : G → List G) (resolution : ℤ) (city : List G) :
    List (HexId × G) :=
  dropDuplicates
    ((city.flatMap explode).flatMap
      (fun geo => (polyfill resolution geo).map (fun h => (h, boundary h))))

/-- C1: for every input region (any list of polygon rows, exploded into
sub-polygon parts by the `explode` oracle) and every resolution, the hex
layer returned by `gen_hexagons` contains no two rows sharing the same
hexagon id, even when several exploded sub-polygons each emit the same
hexagon from their own polyfill.  The geometry of a row is a function of its
id, so the trailing `drop_duplicates()` collapses all repeats of an id. -/
theorem C1_gen_hexagons_ids_nodup {G : Type} [DecidableEq G]
    (polyfill : ℤ → G → List HexId) (boundary : HexId → G)
    (explode : G → List G) (resolution : ℤ) (city : List G) :
    ((gen_hexagons polyfill boundary explode resolution city).map
      Prod.fst).Nodup := by
  have hshape : ∀ x ∈ gen_hexagons polyfill boundary explode resolution city,
      x.2 = boundary x.1 := by
    intro x hx
    have hx' := mem_dropDuplicates.mp hx
    simp only [List.mem_flatMap, List.mem_map] at hx'
    obtain ⟨geo, _, h, _, rfl⟩ := hx'
    rfl
  exact List.Nodup.map_on
    (fun x hx y hy hfst => by
      have hx2 := hshape x hx
      have hy2 := hshape y hy
      exact Prod.ext hfst (by rw [hx2, hy2, hfst]))
    (nodup_dropDuplicates _)

/-! ## SpatialAggregator: `merge_shape_hex`

Source (`geom.py`, lines 183–245): `gpd.sjoin(shape, hexs, how='inner',
op=pred)` joins each source feature to each hex row whose geometry satisfies
the predicate, recording the hex row's index as `index_right`; then
`joined.groupby('index_right').agg(agg)` reduces each declared column over
each non-empty group; finally `ret_hex.loc[hex_merge.index, key] = ...`
writes the reductions back onto a copy of `hexs`, leaving NaN (missing) in a
freshly created column at every hex row whose group is empty.  Row indexes
are modelled positionally.  The model assumes the declared columns are
columns of `shape` and not already columns of `hexs` (otherwise `sjoin`
suffix-renames the collision and the subsequent `groupby(...).agg` raises);
the theorems carry that assumption as a hypothesis. -/

/-- A source feature: a geometry plus numeric attribute columns. -/
structure Feature (G : Type) where
  geom : G
  vals : ColName → ℚ

/-- One row of a hex layer: hex id, cell polygon, and any previously
attached aggregate columns. -/
structure HexRow (G : Type) where
  id : HexId
  geom : G
  attrs : List (ColName × ℚ)

/-- The closed set of aggregation operators admitted by the docstring of
`merge_shape_hex`. -/
inductive AggOp : Type
  | sum : AggOp
  | min : AggOp
  | max : AggOp
deriving DecidableEq

/-- Reduction of a non-empty list of column values, as
`DataFrameGroupBy.agg` applies it to one group. -/
def applyAgg : AggOp → ℚ → List ℚ → ℚ
  | AggOp.sum, v, vs => vs.foldl (· + ·) v
  | AggOp.min, v, vs => vs.foldl min v
  | AggOp.max, v, vs => vs.foldl max v

/-- Model of `gpd.sjoin(shape, hexs, how='inner', op=pred)`: one output row
per (feature, hex row) pair satisfying the predicate, carrying the feature
and the hex row's (positional) index as `index_right`. -/
def sjoin {G : Type} (pred : G → G → Bool) (shape : List (Feature G))
    (hexs : List (HexRow G)) : List (Feature G × ℕ) :=
  shape.flatMap (fun f =>
    (hexs.enum.filter (fun ih => pred f.geom ih.2.geom)).map
      (fun ih => (f, ih.1)))

/-- Model of `joined.groupby('index_right').agg({k: op})` looked up at hex
index `i`: the reduction over the group of joined rows with
`index_right = i`, or `none` when the group is empty (`groupby` emits no row
for an empty group, so the `.loc` write-back leaves NaN there). -/
def groupAgg {G : Type} (joined : List (Feature G × ℕ)) (k : ColName)
    (op : AggOp) (i : ℕ) : Option ℚ :=
  match (joined.filter (fun fj => fj.2 == i)).map (fun fj => fj.1.vals k) with
  | [] => none
  | v :: vs => some (applyAgg op v vs)

/-- One row of the layer returned by `merge_shape_hex`: the original hex
row's data plus one value (possibly missing) per declared column. -/
structure MergedRow (G : Type) where
  id : HexId
  geom : G
  attrs : List (ColName × ℚ)
  aggVals : List (ColName × Option ℚ)

def merge_shape_hex {G : Type} (pred : G → G → Bool) (hexs : List (HexRow G))
    (shape : List (Feature G)) (agg : List (ColName × AggOp)) :
    List (MergedRow G) :=
  let joined := sjoin pred shape hexs
  hexs.enum.map (fun ih =>
    { id := ih.2.id, geom := ih.2.geom, attrs := ih.2.attrs,
      aggVals := agg.map (fun ko => (ko.1, groupAgg joined ko.1 ko.2 ih.1)) })

theorem sjoin_snd_mem {G : Type} {pred : G → G → Bool}
    {shape : List (Feature G)} {hexs : List (HexRow G)} {fj : Feature G × ℕ}
    (h : fj ∈ sjoin pred shape hexs) :
    ∃ hr : HexRow G, (fj.2, hr) ∈ hexs.enum ∧ pred fj.1.geom hr.geom = true := by
  simp only [sjoin, List.mem_flatMap, List.mem_map, List.mem_filter] at h
  obtain ⟨f, _, ih, ⟨hmem, hpred⟩, rfl⟩ := h
  exact ⟨ih.2, by simpa using hmem, hpred⟩

/-- C2: a hex cell to which the predicate assigns zero source features comes
back from `merge_shape_hex` with a missing value (not 0) in every column
declared in the aggregation spec.  The hypothesis `hfresh` records that the
declared columns are not already columns of the hex layer (the code path in
which `sjoin` performs no suffix renaming and `.loc` creates the columns
fresh, NaN-filled). -/
theorem C2_merge_shape_hex_empty_cells_missing {G : Type}
    (pred : G → G → Bool) (hexs : List (HexRow G)) (shape : List (Feature G))
    (agg : List (ColName × AggOp))
    (hfresh : ∀ k ∈ agg.map Prod.fst, ∀ hr ∈ hexs, k ∉ hr.attrs.map Prod.fst)
    (row : MergedRow G) (hrow : row ∈ merge_shape_hex pred hexs shape agg)
    (hempty : ∀ f ∈ shape, pred f.geom row.geom = false) :
    row.aggVals = agg.map (fun ko => (ko.1, none)) := by
  simp only [merge_shape_hex, List.mem_map] at hrow
  obtain ⟨ih, hih, rfl⟩ := hrow
  simp only [List.map_inj_left]
  intro ko _
  refine Prod.ext rfl ?_
  simp only
  have hgroup : (sjoin pred shape hexs).filter (fun fj => fj.2 == ih.1) = [] := by
    rw [List.filter_eq_nil_iff]
    intro fj hfj
    simp only [beq_iff_eq]
    intro hidx
    obtain ⟨hr, hhr, hpred⟩ := sjoin_snd_mem hfj
    rw [hidx] at hhr
    have hsame : hr = ih.2 := by
      have h1 := List.mem_enum_iff_getElem?.mp hhr
      have h2 := List.mem_enum_iff_getElem?.mp (by
        have : (ih.1, ih.2) ∈ hexs.enum := by
          simpa using hih
        exact this)
      simp only at h1 h2
      have := h1.symm.trans h2
      exact Option.some_injective _ this
    have hf : fj.1 ∈ shape := by
      simp only [sjoin, List.mem_flatMap, List.mem_map, List.mem_filter] at hfj
      obtain ⟨f, hfmem, _, _, rfl⟩ := hfj
      exact hfmem
    have := hempty fj.1 hf
    rw [hsame] at hpred
    simp only at this
    rw [this] at hpred
    exact Bool.false_ne_true hpred
  simp [groupAgg, hgroup]

/-- C5: `merge_shape_hex` preserves the hex layer frame exactly — same ids,
same geometries, same previously attached columns, same row order, no row
dropped or added — and the only new data are the declared aggregation
columns, present on every row in spec order.  `hfresh` is the no-collision
assumption under which the `sjoin`/`groupby`/`.loc` pipeline of the source
runs without suffix renaming. -/
theorem C5_merge_shape_hex_preserves_frame {G : Type}
    (pred : G → G → Bool) (hexs : List (HexRow G)) (shape : List (Feature G))
    (agg : List (ColName × AggOp))
    (hfresh : ∀ k ∈ agg.map Prod.fst, ∀ hr ∈ hexs, k ∉ hr.attrs.map Prod.fst) :
    (merge_shape_hex pred hexs shape agg).map
        (fun r => (r.id, r.geom, r.attrs))
      = hexs.map (fun hr => (hr.id, hr.geom, hr.attrs))
    ∧ ∀ r ∈ merge_shape_hex pred hexs shape agg,
        r.aggVals.map Prod.fst = agg.map Prod.fst := by
  constructor
  · simp only [merge_shape_hex, List.map_map]
    have : hexs.map (fun hr => (hr.id, hr.geom, hr.attrs))
        = hexs.enum.map ((fun hr => (hr.id, hr.geom, hr.attrs)) ∘ Prod.snd) := by
      rw [← List.map_map, List.enum_map_snd]
    rw [this]
    rfl
  · intro r hr
    simp only [merge_shape_hex, List.mem_map] at hr
    obtain ⟨ih, _, rfl⟩ := hr
    simp [List.map_map, Function.comp]

/-! ## Summation helpers for the `groupby` reasoning -/

theorem sum_map_add {κ : Type} (K : List κ) (g h : κ → ℚ) :
    (K.map (fun k => g k + h k)).sum = (K.map g).sum + (K.map h).sum := by
  induction K with
  | nil => simp
  | cons k ks ih => simp only [List.map_cons, List.sum_cons, ih]; ring

theorem sum_map_ite {κ : Type} [DecidableEq κ] (a : κ) (c : ℚ) :
    ∀ (K : List κ), K.Nodup → a ∈ K →
      (K.map (fun k => if a = k then c else 0)).sum = c := by
  intro K
  induction K with
  | nil => intro _ h; exact absurd h (List.not_mem_nil a)
  | cons k ks ih =>
    intro hnd hmem
    simp only [List.map_cons, List.sum_cons]
    rcases List.mem_cons.mp hmem with rfl | hmem'
    · rw [if_pos rfl]
      have hzero : (ks.map (fun x => if a = x then c else 0)).sum = 0 := by
        apply List.sum_eq_zero
        intro x hx
        simp only [List.mem_map] at hx
        obtain ⟨y, hy, rfl⟩ := hx
        have hay : a ≠ y := fun h => (List.nodup_cons.mp hnd).1 (h ▸ hy)
        rw [if_neg hay]
      rw [hzero, add_zero]
    · have hak : a ≠ k := by
        intro h
        exact (List.nodup_cons.mp hnd).1 (h ▸ hmem')
      rw [if_neg hak, ih (List.nodup_cons.mp hnd).2 hmem', zero_add]

/-- Grouping is a partition: summing the per-group sums over any duplicate-free
list of keys covering every row gives the sum over all rows.  This is the
core fact behind `groupby(key)[col].sum()` conservation. -/
theorem sum_groups {α κ : Type} [DecidableEq κ] (key : α → κ) (f : α → ℚ) :
    ∀ (l : List α) (K : List κ), K.Nodup → (∀ x ∈ l, key x ∈ K) →
      (K.map (fun k => ((l.filter (fun x => decide (key x = k))).map f).sum)).sum
        = (l.map f).sum := by
  intro l
  induction l with
  | nil =>
    intro K _ _
    simp only [List.filter_nil, List.map_nil, List.sum_nil]
    exact List.sum_eq_zero (by simp)
  | cons x xs ih =>
    intro K hnd hcov
    have hstep : (K.map (fun k =>
        (((x :: xs).filter (fun y => decide (key y = k))).map f).sum)).sum
      = (K.map (fun k => (if key x = k then f x else 0)
          + ((xs.filter (fun y => decide (key y = k))).map f).sum)).sum := by
      congr 1
      apply List.map_congr_left
      intro k _
      by_cases h : key x = k
      · simp [List.filter_cons, h]
      · simp [List.filter_cons, h]
    rw [hstep, sum_map_add,
      sum_map_ite (key x) (f x) K hnd (hcov x (List.mem_cons_self _ _)),
      ih K hnd (fun y hy => hcov y (List.mem_cons_of_mem _ hy))]
    simp

theorem sum_dropDuplicates_groups {α κ : Type} [DecidableEq κ]
    (key : α → κ) (f : α → ℚ) (l : List α) :
    ((dropDuplicates (l.map key)).map
      (fun k => ((l.filter (fun x => decide (key x = k))).map f).sum)).sum
      = (l.map f).sum :=
  sum_groups key f l _ (nodup_dropDuplicates _)
    (fun x hx => mem_dropDuplicates.mpr (List.mem_map_of_mem key hx))

theorem sum_map_flatMap {α β : Type} (l : List α) (g : α → List β) (f : β → ℚ) :
    ((l.flatMap g).map f).sum = (l.map (fun a => ((g a).map f).sum)).sum := by
  induction l with
  | nil => simp
  | cons x xs ih => simp [List.flatMap_cons, ih]

theorem sum_map_filterMap {α β : Type} (l : List α) (f : α → Option β)
    (g : β → ℚ) :
    ((l.filterMap f).map g).sum
      = (l.map (fun a => (((f a).map g).getD 0))).sum := by
  induction l with
  | nil => simp
  | cons x xs ih =>
    cases hx : f x with
    | none => simp [List.filterMap_cons, hx, ih]
    | some b => simp [List.filterMap_cons, hx, ih]

/-! ## AreaWeightedOverlay: `overlay_polygons_hexs`

Source (`geom.py`, lines 247–301): copy the polygon layer and attach
`poly_area` (shapely area of each polygon); `gpd.overlay(polygons_, hexs,
how='intersection')` produces one fragment row per (polygon, hex cell) pair
with a non-empty (polygonal) intersection, carrying the polygon's columns,
its `poly_area`, the cell's hex id, and the intersection geometry; each
declared column is scaled by `fragment area / poly_area`; fragments are
summed per hex id by `groupby(hex_col)[columns].sum()`; finally the
aggregates are `pd.merge`d (inner, on the hex id) with
`hexs[[hex_col, 'geometry']]` to restore the cell polygon.  The source
contains no zero-area guard and never raises: each step is a total
dataframe transformation.  `inter` abstracts the overlay intersection of
one polygon with one cell, `none` standing for an empty (or non-polygonal,
hence dropped) intersection. -/

/-- A source polygon row: geometry plus the numeric columns to apportion. -/
structure PolyRow (G : Type) where
  geom : G
  vals : ColName → ℚ

/-- One row of the overlaid frame: the parent polygon's columns and
`poly_area`, the hex cell's id, and the fragment geometry. -/
structure Fragment (G : Type) where
  vals : ColName → ℚ
  polyArea : ℚ
  hexId : HexId
  geom : G

/-- Model of `gpd.overlay(polygons_, hexs, how='intersection')` applied to
the polygon layer already carrying `poly_area`. -/
def overlayIntersection {G : Type} (area : G → ℚ) (inter : G → G → Option G)
    (polygons : List (PolyRow G)) (hexs : List (HexRow G)) :
    List (Fragment G) :=
  polygons.flatMap (fun p =>
    hexs.filterMap (fun hr =>
      (inter p.geom hr.geom).map (fun g =>
        { vals := p.vals, polyArea := area p.geom, hexId := hr.id,
          geom := g })))

/-- The scaled column value of one fragment:
`col * (fragment area / poly_area)`. -/
def apportioned {G : Type} (area : G → ℚ) (frag : Fragment G)
    (k : ColName) : ℚ :=
  frag.vals k * (area frag.geom / frag.polyArea)

/-- One row of the layer returned by `overlay_polygons_hexs`: hex id, the
apportioned columns, and the cell polygon restored from `hexs`. -/
structure OverlayRow (G : Type) where
  hexId : HexId
  vals : List (ColName × ℚ)
  geom : G

/-- Model of `overlayed.groupby(hex_col)[columns].sum()`: one row per
distinct hex id occurring among the fragments, with each declared column
summed over that id's fragments (after the per-fragment area scaling). -/
def perHexagonAgg {G : Type} (area : G → ℚ) (overlayed : List (Fragment G))
    (columns : List ColName) : List (HexId × List (ColName × ℚ)) :=
  (dropDuplicates (overlayed.map Fragment.hexId)).map (fun hid =>
    (hid, columns.map (fun k =>
      (k, ((overlayed.filter (fun fr => decide (fr.hexId = hid))).map
            (fun fr => apportioned area fr k)).sum))))

def overlay_polygons_hexs {G : Type} (area : G → ℚ)
    (inter : G → G → Option G) (polygons : List (PolyRow G))
    (hexs : List (HexRow G)) (columns : List ColName) :
    List (OverlayRow G) :=
  (perHexagonAgg area (overlayIntersection area inter polygons hexs)
      columns).flatMap (fun row =>
    (hexs.filter (fun hr => decide (hr.id = row.1))).map (fun hr =>
      { hexId := row.1, vals := row.2, geom := hr.geom }))

theorem mem_overlayIntersection {G : Type} {area : G → ℚ}
    {inter : G → G → Option G} {polygons : List (PolyRow G)}
    {hexs : List (HexRow G)} {fr : Fragment G} :
    fr ∈ overlayIntersection area inter polygons hexs
      ↔ ∃ p ∈ polygons, ∃ hr ∈ hexs, ∃ g, inter p.geom hr.geom = some g ∧
          fr = { vals := p.vals, polyArea := area p.geom, hexId := hr.id,
                 geom := g } := by
  simp only [overlayIntersection, List.mem_flatMap, List.mem_filterMap,
    Option.map_eq_some']
  constructor
  · rintro ⟨p, hp, hr, hhr, g, hg, rfl⟩
    exact ⟨p, hp, hr, hhr, g, hg, rfl⟩
  · rintro ⟨p, hp, hr, hhr, g, hg, rfl⟩
    exact ⟨p, hp, hr, hhr, g, hg, rfl⟩

theorem filter_id_singleton {G : Type} :
    ∀ (hexs : List (HexRow G)), (hexs.map HexRow.id).Nodup →
      ∀ hid : HexId, hid ∈ hexs.map HexRow.id →
        ∃ hr : HexRow G,
          hexs.filter (fun r => decide (r.id = hid)) = [hr] ∧ hr.id = hid := by
  intro hexs
  induction hexs with
  | nil => intro _ hid h; exact absurd h (by simp)
  | cons h hs ih =>
    intro hnd hid hmem
    simp only [List.map_cons, List.nodup_cons] at hnd
    by_cases hh : h.id = hid
    · refine ⟨h, ?_, hh⟩
      have hrest : hs.filter (fun r => decide (r.id = hid)) = [] := by
        rw [List.filter_eq_nil_iff]
        intro r hr
        simp only [decide_eq_true_eq]
        intro hrid
        exact hnd.1 (by
          rw [hh, ← hrid]
          exact List.mem_map_of_mem HexRow.id hr)
      simp [List.filter_cons, hh, hrest]
    · have hmem' : hid ∈ hs.map HexRow.id := by
        simp only [List.map_cons, List.mem_cons] at hmem
        rcases hmem with h1 | h1
        · exact absurd h1.symm hh
        · exact h1
      obtain ⟨hr, hfil, hrid⟩ := ih hnd.2 hid hmem'
      exact ⟨hr, by simp [List.filter_cons, hh, hfil], hrid⟩

theorem lookup_graph {β : Type} (f : ColName → β) (k : ColName) :
    ∀ (cols : List ColName), k ∈ cols →
      (cols.map (fun c => (c, f c))).lookup k = some (f k) := by
  intro cols
  induction cols with
  | nil => intro h; exact absurd h (List.not_mem_nil k)
  | cons c cs ih =>
    intro hmem
    by_cases hkc : k = c
    · subst hkc
      simp [List.lookup_cons]
    · have hcs : k ∈ cs := by
        rcases List.mem_cons.mp hmem with h | h
        · exact absurd h hkc
        · exact h
      have hbeq : (k == c) = false := by
        simpa using hkc
      simp [List.lookup_cons, hbeq, ih hcs]

theorem sum_merge_stage {G : Type} (hexs : List (HexRow G))
    (hids : (hexs.map HexRow.id).Nodup) (k : ColName)
    (perHex : List (HexId × List (ColName × ℚ)))
    (hsub : ∀ row ∈ perHex, row.1 ∈ hexs.map HexRow.id) :
    ((perHex.flatMap (fun row =>
        (hexs.filter (fun hr => decide (hr.id = row.1))).map (fun hr =>
          ({ hexId := row.1, vals := row.2, geom := hr.geom } :
            OverlayRow G)))).map
      (fun r => (r.vals.lookup k).getD 0)).sum
    = (perHex.map (fun row => (row.2.lookup k).getD 0)).sum := by
  rw [sum_map_flatMap]
  congr 1
  apply List.map_congr_left
  intro row hrow
  rw [List.map_map]
  obtain ⟨hr, hfil, _⟩ := filter_id_singleton hexs hids row.1 (hsub row hrow)
  rw [hfil]
  simp [Function.comp]

theorem sum_perHexagonAgg {G : Type} (area : G → ℚ)
    (overlayed : List (Fragment G)) (columns : List ColName) (k : ColName)
    (hk : k ∈ columns) :
    ((perHexagonAgg area overlayed columns).map
        (fun row => (row.2.lookup k).getD 0)).sum
      = (overlayed.map (fun fr => apportioned area fr k)).sum := by
  rw [perHexagonAgg, List.map_map]
  have hpt : ∀ hid ∈ dropDuplicates (overlayed.map Fragment.hexId),
      ((fun row => ((row.2.lookup k).getD (0:ℚ))) ∘ (fun hid =>
        (hid, columns.map (fun k => (k,
          ((overlayed.filter (fun fr => decide (fr.hexId = hid))).map
            (fun fr => apportioned area fr k)).sum))))) hid
      = ((overlayed.filter (fun fr => decide (fr.hexId = hid))).map
          (fun fr => apportioned area fr k)).sum := by
    intro hid _
    simp only [Function.comp]
    rw [lookup_graph (fun c =>
      ((overlayed.filter (fun fr => decide (fr.hexId = hid))).map
        (fun fr => apportioned area fr c)).sum) k columns hk]
    rfl
  rw [List.map_congr_left hpt, sum_dropDuplicates_groups]

theorem sum_fragments {G : Type} (area : G → ℚ) (inter : G → G → Option G)
    (polygons : List (PolyRow G)) (hexs : List (HexRow G)) (k : ColName)
    (hpos : ∀ p ∈ polygons, 0 < area p.geom)
    (hcover : ∀ p ∈ polygons,
      (hexs.map (fun hr => ((inter p.geom hr.geom).map area).getD 0)).sum
        = area p.geom) :
    ((overlayIntersection area inter polygons hexs).map
        (fun fr => apportioned area fr k)).sum
      = (polygons.map (fun p => p.vals k)).sum := by
  rw [overlayIntersection, sum_map_flatMap]
  have hper : ∀ p ∈ polygons,
      ((hexs.filterMap (fun hr => (inter p.geom hr.geom).map (fun g =>
          ({ vals := p.vals, polyArea := area p.geom, hexId := hr.id,
             geom := g } : Fragment G)))).map
        (fun fr => apportioned area fr k)).sum = p.vals k := by
    intro p hp
    have hAne : area p.geom ≠ 0 := ne_of_gt (hpos p hp)
    rw [sum_map_filterMap]
    have hpt : ∀ hr ∈ hexs,
        (((inter p.geom hr.geom).map (fun g =>
            ({ vals := p.vals, polyArea := area p.geom, hexId := hr.id,
               geom := g } : Fragment G))).map
          (fun fr => apportioned area fr k)).getD 0
        = (p.vals k / area p.geom)
            * (((inter p.geom hr.geom).map area).getD 0) := by
      intro hr _
      cases h : inter p.geom hr.geom with
      | none => simp
      | some g =>
        simp only [h, Option.map_some', Option.getD_some, apportioned]
        ring
    rw [List.map_congr_left hpt, List.sum_map_mul_left, hcover p hp,
      div_mul_cancel₀ _ hAne]
  rw [List.map_congr_left hper]

/-- C3: mass conservation for the area-weighted overlay, over exact rational
arithmetic.  If every source polygon has strictly positive area and is fully
covered by the (duplicate-free) hex layer — its area equals the sum of its
fragment areas across all cells — then for each declared column, the column
total over all cells output by `overlay_polygons_hexs` equals the column
total over all input polygons. -/
theorem C3_overlay_mass_conservation {G : Type} (area : G → ℚ)
    (inter : G → G → Option G) (polygons : List (PolyRow G))
    (hexs : List (HexRow G)) (columns : List ColName) (k : ColName)
    (hk : k ∈ columns)
    (hids : (hexs.map HexRow.id).Nodup)
    (hpos : ∀ p ∈ polygons, 0 < area p.geom)
    (hcover : ∀ p ∈ polygons,
      (hexs.map (fun hr => ((inter p.geom hr.geom).map area).getD 0)).sum
        = area p.geom) :
    ((overlay_polygons_hexs area inter polygons hexs columns).map
        (fun r => (r.vals.lookup k).getD 0)).sum
      = (polygons.map (fun p => p.vals k)).sum := by
  have hsub : ∀ row ∈ perHexagonAgg area
      (overlayIntersection area inter polygons hexs) columns,
      row.1 ∈ hexs.map HexRow.id := by
    intro row hrow
    simp only [perHexagonAgg, List.mem_map] at hrow
    obtain ⟨hid, hhid, rfl⟩ := hrow
    have hmem : hid ∈ (overlayIntersection area inter polygons hexs).map
        Fragment.hexId := mem_dropDuplicates.mp hhid
    simp only [List.mem_map] at hmem
    obtain ⟨fr, hfr, rfl⟩ := hmem
    obtain ⟨p, _, hr, hhr, g, _, rfl⟩ := mem_overlayIntersection.mp hfr
    exact List.mem_map_of_mem HexRow.id hhr
  rw [overlay_polygons_hexs,
    sum_merge_stage hexs hids k _ hsub,
    sum_perHexagonAgg area _ columns k hk,
    sum_fragments area inter polygons hexs k hpos hcover]

/-- C9: a hex cell appears in the output of `overlay_polygons_hexs` exactly
when its geometry has a non-empty (polygonal) overlay intersection with at
least one source polygon; cells receiving no fragment are dropped from the
output entirely (the `groupby` emits no group for them and the inner merge
never restores them), unlike `merge_shape_hex` which keeps them with
missing values. -/
theorem C9_overlay_output_cells_iff {G : Type} (area : G → ℚ)
    (inter : G → G → Option G) (polygons : List (PolyRow G))
    (hexs : List (HexRow G)) (columns : List ColName)
    (hids : (hexs.map HexRow.id).Nodup) (hr : HexRow G) (hhr : hr ∈ hexs) :
    hr.id ∈ (overlay_polygons_hexs area inter polygons hexs columns).map
        OverlayRow.hexId
      ↔ ∃ p ∈ polygons, inter p.geom hr.geom ≠ none := by
  constructor
  · intro hmem
    simp only [List.mem_map] at hmem
    obtain ⟨r, hrmem, hrid⟩ := hmem
    simp only [overlay_polygons_hexs, List.mem_flatMap, List.mem_map,
      List.mem_filter, decide_eq_true_eq] at hrmem
    obtain ⟨row, hrow, hr1, ⟨_, _⟩, rfl⟩ := hrmem
    simp only at hrid
    simp only [perHexagonAgg, List.mem_map] at hrow
    obtain ⟨hid, hK, rfl⟩ := hrow
    simp only at hrid
    have hmemK := mem_dropDuplicates.mp hK
    simp only [List.mem_map] at hmemK
    obtain ⟨fr, hfr, hfrid⟩ := hmemK
    obtain ⟨p, hp, hr2, hhr2, g, hg, rfl⟩ := mem_overlayIntersection.mp hfr
    have hidEq : hr2.id = hr.id := by
      simpa [hrid] using hfrid
    have hr2hr : hr2 = hr :=
      List.inj_on_of_nodup_map hids hhr2 hhr hidEq
    refine ⟨p, hp, ?_⟩
    rw [← hr2hr, hg]
    exact Option.some_ne_none g
  · rintro ⟨p, hp, hinter⟩
    cases hop : inter p.geom hr.geom with
    | none => exact absurd hop hinter
    | some g =>
      have hfr : ({ vals := p.vals, polyArea := area p.geom,
                    hexId := hr.id, geom := g } : Fragment G)
          ∈ overlayIntersection area inter polygons hexs :=
        mem_overlayIntersection.mpr ⟨p, hp, hr, hhr, g, hop, rfl⟩
      have hK : hr.id ∈ dropDuplicates
          ((overlayIntersection area inter polygons hexs).map
            Fragment.hexId) :=
        mem_dropDuplicates.mpr (List.mem_map_of_mem Fragment.hexId hfr)
      have houtmem : ({ hexId := hr.id, vals := columns.map (fun k =>
          (k, (((overlayIntersection area inter polygons hexs).filter
                (fun fr => decide (fr.hexId = hr.id))).map
              (fun fr => apportioned area fr k)).sum)), geom := hr.geom } :
            OverlayRow G)
          ∈ overlay_polygons_hexs area inter polygons hexs columns := by
        simp only [overlay_polygons_hexs, List.mem_flatMap]
        refine ⟨(hr.id, columns.map (fun k =>
          (k, (((overlayIntersection area inter polygons hexs).filter
                (fun fr => decide (fr.hexId = hr.id))).map
              (fun fr => apportioned area fr k)).sum))), ?_, ?_⟩
        · exact List.mem_map.mpr ⟨hr.id, hK, rfl⟩
        · exact List.mem_map.mpr
            ⟨hr, List.mem_filter.mpr ⟨hhr, by simp⟩, rfl⟩
      exact List.mem_map.mpr ⟨_, houtmem, rfl⟩

/-- C6 counterexample: at a concrete input containing a zero-area source
polygon (its degenerate intersections are all dropped by the overlay, as
`gpd.overlay(..., how='intersection')` keeps only polygonal results),
`overlay_polygons_hexs` returns a normal result — the empty layer — rather
than failing: the source contains no zero-area guard and defines no
`DegenerateGeometryError`. -/
theorem C6_counterexample :
    overlay_polygons_hexs (fun _ => (0 : ℚ)) (fun _ _ => (none : Option ℕ))
      [{ geom := 0, vals := fun _ => 7 }]
      [{ id := "a", geom := 1, attrs := [] }] ["pop"] = [] := by
  rfl

/-- C6 amended: `overlay_polygons_hexs` has no zero-area guard and never
raises; a source polygon none of whose cell intersections survive the
overlay (the behavior of a zero-area polygon, whose intersections are
degenerate and dropped) is silently omitted: the output is exactly the
output computed from the remaining polygons. -/
theorem C6_overlay_zero_area_silently_dropped {G : Type} (area : G → ℚ)
    (inter : G → G → Option G) (p : PolyRow G) (polygons : List (PolyRow G))
    (hexs : List (HexRow G)) (columns : List ColName)
    (hdrop : ∀ hr ∈ hexs, inter p.geom hr.geom = none) :
    overlay_polygons_hexs area inter (p :: polygons) hexs columns
      = overlay_polygons_hexs area inter polygons hexs columns := by
  have hnil : overlayIntersection area inter (p :: polygons) hexs
      = overlayIntersection area inter polygons hexs := by
    simp only [overlayIntersection, List.flatMap_cons]
    have hempty : hexs.filterMap (fun hr => (inter p.geom hr.geom).map
        (fun g => ({ vals := p.vals, polyArea := area p.geom,
                     hexId := hr.id, geom := g } : Fragment G))) = [] := by
      rw [List.filterMap_eq_nil_iff]
      intro hr hhr
      rw [hdrop hr hhr]
      rfl
    rw [hempty, List.nil_append]
  rw [overlay_polygons_hexs, overlay_polygons_hexs, hnil]

/-! ## ResolutionDownsampler: `resolution_downsampling`

Source (`geom.py`, lines 303–333): attach to each fine row the id of its
ancestor at the requested resolution (`h3.h3_to_parent`), group by that
ancestor id, apply the aggregation dict to each group, and rebuild the
coarse cell geometry from the ancestor id via
`utils.geo_boundary_to_polygon`.  No validation relates
`coarse_resolution` to the layer's actual resolution.  Fine-cell column
values may be missing (NaN left by `merge_shape_hex`); pandas reductions
skip missing values, and `sum` of an all-missing group is `0.0`. -/

/-- Reduction of one groupby group as pandas applies it to a column that may
contain missing values: missing entries are skipped; a group whose
non-missing part is empty yields `0` for `sum` and missing for
`min`/`max`. -/
def pandasAgg : AggOp → List (Option ℚ) → Option ℚ
  | AggOp.sum, vs => some ((vs.filterMap id).sum)
  | AggOp.min, vs =>
    match vs.filterMap id with
    | [] => none
    | v :: rest => some (rest.foldl min v)
  | AggOp.max, vs =>
    match vs.filterMap id with
    | [] => none
    | v :: rest => some (rest.foldl max v)

/-- One row of a fine hex layer entering `resolution_downsampling`: hex id
and aggregate columns whose values may be missing. -/
structure FineRow (G : Type) where
  id : HexId
  vals : ColName → Option ℚ
  geom : G

/-- One row of the coarse layer produced by `resolution_downsampling`. -/
structure CoarseRow (G : Type) where
  id : HexId
  aggVals : List (ColName × Option ℚ)
  geom : G

/-- Model of `gdf_coarse`, the fine layer with the ancestor-id column
attached: `gdf_coarse[coarse_hex_col] = gdf[hex_col].apply(lambda x:
h3.h3_to_parent(x, coarse_resolution))`. -/
def withParent {G : Type} (h3_to_parent : HexId → ℤ → HexId)
    (gdf : List (FineRow G)) (coarse_resolution : ℤ) :
    List (HexId × FineRow G) :=
  gdf.map (fun r => (h3_to_parent r.id coarse_resolution, r))

/-- One output row of the downsampling `groupby(coarse_hex_col).agg(agg)`,
for ancestor id `pid`, with the coarse geometry rebuilt from the id. -/
def downsampleRow {G : Type} (h3_to_parent : HexId → ℤ → HexId)
    (boundary : HexId → G) (gdf : List (FineRow G)) (coarse_resolution : ℤ)
    (agg : List (ColName × AggOp)) (pid : HexId) : CoarseRow G :=
  { id := pid,
    aggVals := agg.map (fun ko =>
      (ko.1, pandasAgg ko.2
        (((withParent h3_to_parent gdf coarse_resolution).filter
          (fun pr => decide (pr.1 = pid))).map (fun pr => pr.2.vals ko.1)))),
    geom := boundary pid }

def resolution_downsampling {G : Type} (h3_to_parent : HexId → ℤ → HexId)
    (boundary : HexId → G) (gdf : List (FineRow G)) (coarse_resolution : ℤ)
    (agg : List (ColName × AggOp)) : List (CoarseRow G) :=
  (dropDuplicates ((withParent h3_to_parent gdf coarse_resolution).map
      Prod.fst)).map
    (downsampleRow h3_to_parent boundary gdf coarse_resolution agg)

theorem sum_filterMap_id (vs : List (Option ℚ)) :
    (vs.filterMap id).sum = (vs.map (fun o => o.getD 0)).sum := by
  induction vs with
  | nil => simp
  | cons v vs ih => cases v <;> simp [List.filterMap_cons, ih]

theorem lookup_map_agg {β : Type} (F : ColName × AggOp → β) (k : ColName)
    (op : AggOp) :
    ∀ (agg : List (ColName × AggOp)), (agg.map Prod.fst).Nodup →
      (k, op) ∈ agg →
      (agg.map (fun ko => (ko.1, F ko))).lookup k = some (F (k, op)) := by
  intro agg
  induction agg with
  | nil => intro _ h; cases h
  | cons ko rest ih =>
    intro hnd hmem
    simp only [List.map_cons, List.nodup_cons] at hnd
    rcases List.mem_cons.mp hmem with rfl | hmem'
    · simp [List.lookup_cons]
    · have hk : (k == ko.1) = false := by
        have : k ≠ ko.1 := by
          intro h
          exact hnd.1 (h ▸ List.mem_map_of_mem Prod.fst hmem')
        simpa using this
      simp [List.lookup_cons, hk, ih hnd.2 hmem']

/-- C4: sum conservation under downsampling, over exact rational
arithmetic.  For a declared column whose reduction is `sum`, the total of
that column over all coarse cells output by `resolution_downsampling`
equals the sum of the column over exactly the non-missing fine cells:
grouping by the parent id partitions the fine rows, pandas `sum` skips
missing values, and a group that is entirely missing contributes `0`.
(The statement quantifies over every `coarse_resolution`, so in particular
over every strictly coarser one.) -/
theorem C4_downsampling_sum_conservation {G : Type}
    (h3_to_parent : HexId → ℤ → HexId) (boundary : HexId → G)
    (gdf : List (FineRow G)) (coarse_resolution : ℤ)
    (agg : List (ColName × AggOp)) (k : ColName)
    (hmem : (k, AggOp.sum) ∈ agg) (hnd : (agg.map Prod.fst).Nodup) :
    ((resolution_downsampling h3_to_parent boundary gdf coarse_resolution
        agg).map (fun r => ((r.aggVals.lookup k).getD none).getD 0)).sum
      = ((gdf.map (fun r => r.vals k)).filterMap id).sum := by
  rw [resolution_downsampling, List.map_map]
  have hpt : ∀ pid ∈ dropDuplicates ((withParent h3_to_parent gdf
      coarse_resolution).map Prod.fst),
      ((fun r : CoarseRow G => ((r.aggVals.lookup k).getD none).getD 0) ∘
        downsampleRow h3_to_parent boundary gdf coarse_resolution agg) pid
      = (((withParent h3_to_parent gdf coarse_resolution).filter
          (fun pr => decide (pr.1 = pid))).map
            (fun pr => (pr.2.vals k).getD 0)).sum := by
    intro pid _
    simp only [Function.comp, downsampleRow]
    rw [lookup_map_agg (fun ko =>
      pandasAgg ko.2 (((withParent h3_to_parent gdf coarse_resolution).filter
        (fun pr => decide (pr.1 = pid))).map
          (fun pr => pr.2.vals ko.1))) k AggOp.sum agg hnd hmem]
    simp only [Option.getD_some, pandasAgg]
    rw [sum_filterMap_id, List.map_map]
    rfl
  rw [List.map_congr_left hpt,
    @sum_groups (HexId × FineRow G) HexId _ Prod.fst
      (fun pr => (pr.2.vals k).getD 0)
      (withParent h3_to_parent gdf coarse_resolution) _
      (nodup_dropDuplicates _)
      (fun x hx => mem_dropDuplicates.mpr (List.mem_map_of_mem Prod.fst hx)),
    withParent, List.map_map, sum_filterMap_id, List.map_map]
  rfl

/-- C8 counterexample: `resolution_downsampling` performs no resolution
validation.  At a concrete input whose target resolution equals the source
resolution — where `h3.h3_to_parent(h, res(h)) = h`, modelled by the
identity parent oracle — the call returns a normal one-row result instead
of failing with `InvalidParameterError` (a class that does not exist in the
repository). -/
theorem C8_counterexample :
    resolution_downsampling (fun h _ => h) (fun _ => (0 : ℕ))
      [{ id := "a", vals := fun _ => none, geom := 0 }] 9
      [("pop", AggOp.sum)]
      = [{ id := "a", aggVals := [("pop", some 0)], geom := 0 }] := by
  rfl

/-- C8 amended: `resolution_downsampling` never checks the target
resolution against the source resolution and cannot fail; whenever the
parent oracle fixes every fine id (the h3 behavior when
`coarse_resolution` equals the id's own resolution), the call succeeds and
returns one row per distinct fine id. -/
theorem C8_downsampling_no_validation {G : Type}
    (h3_to_parent : HexId → ℤ → HexId) (boundary : HexId → G)
    (gdf : List (FineRow G)) (coarse_resolution : ℤ)
    (agg : List (ColName × AggOp))
    (hpar : ∀ r ∈ gdf, h3_to_parent r.id coarse_resolution = r.id) :
    (resolution_downsampling h3_to_parent boundary gdf coarse_resolution
        agg).map CoarseRow.id
      = dropDuplicates (gdf.map FineRow.id) := by
  rw [resolution_downsampling, List.map_map]
  have hids : (withParent h3_to_parent gdf coarse_resolution).map Prod.fst
      = gdf.map FineRow.id := by
    rw [withParent, List.map_map]
    exact List.map_congr_left (fun r hr => hpar r hr)
  rw [hids]
  have hcomp : ∀ pid ∈ dropDuplicates (gdf.map FineRow.id),
      (CoarseRow.id ∘
        downsampleRow h3_to_parent boundary gdf coarse_resolution agg) pid
        = pid := by
    intro pid _
    rfl
  rw [List.map_congr_left hcomp]
  simp

/-- C7 counterexample: at resolution 16 — outside [0,15] — and a concrete
one-polygon region, `gen_hexagons` returns a normal hexagon layer driven
entirely by the polyfill oracle's output: the source performs no resolution
validation before (or after) polyfilling, and no `InvalidParameterError`
class exists anywhere in the repository. -/
theorem C7_counterexample :
    gen_hexagons (fun _ _ => ["8"]) (fun _ => (0 : ℕ)) (fun g => [g]) 16 [5]
      = [("8", 0)] := by
  rfl

/-- C7 amended: `gen_hexagons` applies no validation to `resolution`; the
resolution reaches the computation only through the per-part `h3.polyfill`
calls, so any two (resolution, polyfill-behavior) pairs that agree on every
part produce identical outputs — in particular an out-of-range resolution is
forwarded unchecked to the library inside the loop rather than rejected
eagerly with `InvalidParameterError`. -/
theorem C7_gen_hexagons_no_resolution_validation {G : Type} [DecidableEq G]
    (pf1 pf2 : ℤ → G → List HexId) (boundary : HexId → G)
    (explode : G → List G) (r1 r2 : ℤ) (city : List G)
    (h : ∀ g, pf1 r1 g = pf2 r2 g) :
    gen_hexagons pf1 boundary explode r1 city
      = gen_hexagons pf2 boundary explode r2 city := by
  unfold gen_hexagons
  congr 1
  have hfm : ∀ l : List G,
      l.flatMap (fun geo => (pf1 r1 geo).map (fun hx => (hx, boundary hx)))
        = l.flatMap (fun geo =>
            (pf2 r2 geo).map (fun hx => (hx, boundary hx))) := by
    intro l
    induction l with
    | nil => rfl
    | cons x xs ih => simp only [List.flatMap_cons, ih, h x]
  exact hfm _

/-- C10: the four core operations are deterministic — each is a pure
function of its inputs (region rows, layers, features, aggregation spec)
and of the geometry-library oracles, with no hidden state, so two runs on
equal inputs produce equal outputs, record for record. -/
theorem C10_core_operations_deterministic {G : Type} [DecidableEq G]
    (polyfill : ℤ → G → List HexId) (boundary : HexId → G)
    (explode : G → List G) (resolution : ℤ) (city city2 : List G)
    (pred : G → G → Bool) (hexs hexs2 : List (HexRow G))
    (shape : List (Feature G)) (agg : List (ColName × AggOp))
    (area : G → ℚ) (inter : G → G → Option G)
    (polygons : List (PolyRow G)) (columns : List ColName)
    (h3_to_parent : HexId → ℤ → HexId) (gdf gdf2 : List (FineRow G))
    (coarse_resolution : ℤ)
    (hcity : city = city2) (hhexs : hexs = hexs2) (hgdf : gdf = gdf2) :
    gen_hexagons polyfill boundary explode resolution city
        = gen_hexagons polyfill boundary explode resolution city2
      ∧ merge_shape_hex pred hexs shape agg
          = merge_shape_hex pred hexs2 shape agg
      ∧ overlay_polygons_hexs area inter polygons hexs columns
          = overlay_polygons_hexs area inter polygons hexs2 columns
      ∧ resolution_downsampling h3_to_parent boundary gdf
            coarse_resolution agg
          = resolution_downsampling h3_to_parent boundary gdf2
            coarse_resolution agg := by
  subst hcity
  subst hhexs
  subst hgdf
  exact ⟨rfl, rfl, rfl, rfl⟩

/-! ## Witnesses: concrete instantiations discharging each theorem's
hypotheses -/

theorem C2_witness :
    ({ id := "a", geom := (0 : ℕ), attrs := [],
       aggVals := [("pop", (none : Option ℚ))] } : MergedRow ℕ)
        ∈ merge_shape_hex (fun _ _ => false)
            [{ id := "a", geom := 0, attrs := [] }]
            [{ geom := 1, vals := fun _ => (3 : ℚ) }] [("pop", AggOp.sum)]
      ∧ ({ id := "a", geom := (0 : ℕ), attrs := [],
           aggVals := [("pop", (none : Option ℚ))] } : MergedRow ℕ).aggVals
          = [("pop", AggOp.sum)].map (fun ko => (ko.1, (none : Option ℚ))) := by
  have heq : merge_shape_hex (fun _ _ => false)
      [{ id := "a", geom := (0 : ℕ), attrs := [] }]
      [{ geom := 1, vals := fun _ => (3 : ℚ) }] [("pop", AggOp.sum)]
      = [{ id := "a", geom := 0, attrs := [],
           aggVals := [("pop", (none : Option ℚ))] }] := by
    rfl
  have hmem : ({ id := "a", geom := (0 : ℕ), attrs := [],
                 aggVals := [("pop", (none : Option ℚ))] } : MergedRow ℕ)
      ∈ merge_shape_hex (fun _ _ => false)
          [{ id := "a", geom := 0, attrs := [] }]
          [{ geom := 1, vals := fun _ => (3 : ℚ) }] [("pop", AggOp.sum)] := by
    rw [heq]
    exact List.mem_singleton.mpr rfl
  exact ⟨hmem, C2_merge_shape_hex_empty_cells_missing (fun _ _ => false)
    [{ id := "a", geom := 0, attrs := [] }]
    [{ geom := 1, vals := fun _ => (3 : ℚ) }] [("pop", AggOp.sum)]
    (by simp) _ hmem (fun f _ => rfl)⟩

theorem C3_witness :
    ((overlay_polygons_hexs
        (fun g => if g = 10 then (4 : ℚ) else if g = 101 then 1
          else if g = 102 then 3 else 0)
        (fun pg hg => if pg = 10 ∧ hg = 1 then some 101
          else if pg = 10 ∧ hg = 2 then some 102 else none)
        [{ geom := 10, vals := fun _ => (6 : ℚ) }]
        [{ id := "a", geom := 1, attrs := [] },
         { id := "b", geom := 2, attrs := [] }] ["pop"]).map
      (fun r => (r.vals.lookup "pop").getD 0)).sum
      = ([({ geom := 10, vals := fun _ => (6 : ℚ) } : PolyRow ℕ)].map
          (fun p => p.vals "pop")).sum :=
  C3_overlay_mass_conservation
    (fun g => if g = 10 then (4 : ℚ) else if g = 101 then 1
      else if g = 102 then 3 else 0)
    (fun pg hg => if pg = 10 ∧ hg = 1 then some 101
      else if pg = 10 ∧ hg = 2 then some 102 else none)
    [{ geom := 10, vals := fun _ => (6 : ℚ) }]
    [{ id := "a", geom := 1, attrs := [] },
     { id := "b", geom := 2, attrs := [] }] ["pop"] "pop"
    (by decide) (by decide)
    (by intro p hp; fin_cases hp; norm_num)
    (by intro p hp; fin_cases hp; norm_num)

theorem C4_witness :
    ((resolution_downsampling (fun _ _ => "p") (fun _ => (0 : ℕ))
        [{ id := "a", vals := fun _ => some (2 : ℚ), geom := 0 },
         { id := "b", vals := fun _ => none, geom := 0 }] 5
        [("pop", AggOp.sum)]).map
      (fun r => ((r.aggVals.lookup "pop").getD none).getD 0)).sum
      = (([({ id := "a", vals := fun _ => some (2 : ℚ), geom := 0 } :
            FineRow ℕ),
          { id := "b", vals := fun _ => none, geom := 0 }].map
          (fun r => r.vals "pop")).filterMap id).sum :=
  C4_downsampling_sum_conservation (fun _ _ => "p") (fun _ => (0 : ℕ))
    [{ id := "a", vals := fun _ => some (2 : ℚ), geom := 0 },
     { id := "b", vals := fun _ => none, geom := 0 }] 5
    [("pop", AggOp.sum)] "pop" (by decide) (by decide)

theorem C5_witness :
    (merge_shape_hex (fun _ _ => true)
        [{ id := "a", geom := (0 : ℕ), attrs := [("old", (5 : ℚ))] }]
        [{ geom := 1, vals := fun _ => (2 : ℚ) }]
        [("pop", AggOp.max)]).map (fun r => (r.id, r.geom, r.attrs))
      = [({ id := "a", geom := (0 : ℕ),
            attrs := [("old", (5 : ℚ))] } : HexRow ℕ)].map
          (fun hr => (hr.id, hr.geom, hr.attrs))
    ∧ ∀ r ∈ merge_shape_hex (fun _ _ => true)
        [{ id := "a", geom := (0 : ℕ), attrs := [("old", (5 : ℚ))] }]
        [{ geom := 1, vals := fun _ => (2 : ℚ) }]
        [("pop", AggOp.max)],
        r.aggVals.map Prod.fst = [("pop", AggOp.max)].map Prod.fst :=
  C5_merge_shape_hex_preserves_frame (fun _ _ => true)
    [{ id := "a", geom := (0 : ℕ), attrs := [("old", (5 : ℚ))] }]
    [{ geom := 1, vals := fun _ => (2 : ℚ) }]
    [("pop", AggOp.max)] (by simp)

theorem C6_witness :
    overlay_polygons_hexs (fun _ => (1 : ℚ)) (fun _ _ => (none : Option ℕ))
        ({ geom := 0, vals := fun _ => (7 : ℚ) } ::
          [{ geom := 3, vals := fun _ => (1 : ℚ) }])
        [{ id := "a", geom := 1, attrs := [] }] ["pop"]
      = overlay_polygons_hexs (fun _ => (1 : ℚ))
          (fun _ _ => (none : Option ℕ))
          [{ geom := 3, vals := fun _ => (1 : ℚ) }]
          [{ id := "a", geom := 1, attrs := [] }] ["pop"] :=
  C6_overlay_zero_area_silently_dropped (fun _ => (1 : ℚ))
    (fun _ _ => (none : Option ℕ)) { geom := 0, vals := fun _ => (7 : ℚ) }
    [{ geom := 3, vals := fun _ => (1 : ℚ) }]
    [{ id := "a", geom := 1, attrs := [] }] ["pop"] (fun _ _ => rfl)

theorem C7_witness :
    gen_hexagons (fun _ _ => ["8"]) (fun _ => (0 : ℕ)) (fun g => [g]) 16 [5]
      = gen_hexagons (fun _ _ => ["8"]) (fun _ => (0 : ℕ)) (fun g => [g])
          0 [5] :=
  C7_gen_hexagons_no_resolution_validation (fun _ _ => ["8"])
    (fun _ _ => ["8"]) (fun _ => (0 : ℕ)) (fun g => [g]) 16 0 [5]
    (fun _ => rfl)

theorem C8_witness :
    (resolution_downsampling (fun h _ => h) (fun _ => (0 : ℕ))
        [{ id := "a", vals := fun _ => none, geom := 0 }] 9
        [("pop", AggOp.sum)]).map CoarseRow.id
      = dropDuplicates
          ([({ id := "a", vals := fun _ => none, geom := 0 } :
              FineRow ℕ)].map FineRow.id) :=
  C8_downsampling_no_validation (fun h _ => h) (fun _ => (0 : ℕ))
    [{ id := "a", vals := fun _ => none, geom := 0 }] 9
    [("pop", AggOp.sum)] (fun _ _ => rfl)

theorem C9_witness :
    (({ id := "a", geom := 1, attrs := [] } : HexRow ℕ).id
        ∈ (overlay_polygons_hexs (fun _ => (1 : ℚ))
            (fun pg hg => if pg = 10 ∧ hg = 1 then some 100 else none)
            [{ geom := 10, vals := fun _ => (1 : ℚ) }]
            [{ id := "a", geom := 1, attrs := [] },
             { id := "b", geom := 2, attrs := [] }] ["pop"]).map
          OverlayRow.hexId)
      ↔ ∃ p ∈ [({ geom := 10, vals := fun _ => (1 : ℚ) } : PolyRow ℕ)],
          (fun pg hg => if pg = 10 ∧ hg = 1 then some 100 else none) p.geom
              ({ id := "a", geom := 1, attrs := [] } : HexRow ℕ).geom
            ≠ none :=
  C9_overlay_output_cells_iff (fun _ => (1 : ℚ))
    (fun pg hg => if pg = 10 ∧ hg = 1 then some 100 else none)
    [{ geom := 10, vals := fun _ => (1 : ℚ) }]
    [{ id := "a", geom := 1, attrs := [] },
     { id := "b", geom := 2, attrs := [] }] ["pop"] (by decide)
    { id := "a", geom := 1, attrs := [] } (List.mem_cons_self _ _)

theorem C10_witness :
    gen_hexagons (fun _ _ => ["8"]) (fun _ => (0 : ℕ)) (fun g => [g]) 8 [5]
        = gen_hexagons (fun _ _ => ["8"]) (fun _ => (0 : ℕ)) (fun g => [g])
            8 [5]
      ∧ merge_shape_hex (fun _ _ => true)
            [{ id := "a", geom := (0 : ℕ), attrs := [] }] [] []
          = merge_shape_hex (fun _ _ => true)
            [{ id := "a", geom := (0 : ℕ), attrs := [] }] [] []
      ∧ overlay_polygons_hexs (fun _ => (1 : ℚ)) (fun _ _ => none) []
            [{ id := "a", geom := (0 : ℕ), attrs := [] }] []
          = overlay_polygons_hexs (fun _ => (1 : ℚ)) (fun _ _ => none) []
            [{ id := "a", geom := (0 : ℕ), attrs := [] }] []
      ∧ resolution_downsampling (fun h _ => h) (fun _ => (0 : ℕ)) [] 5 []
          = resolution_downsampling (fun h _ => h) (fun _ => (0 : ℕ))
            [] 5 [] :=
  C10_core_operations_deterministic (fun _ _ => ["8"]) (fun _ => (0 : ℕ))
    (fun g => [g]) 8 [5] [5] (fun _ _ => true)
    [{ id := "a", geom := (0 : ℕ), attrs := [] }]
    [{ id := "a", geom := (0 : ℕ), attrs := [] }] [] []
    (fun _ => (1 : ℚ)) (fun _ _ => none) [] [] (fun h _ => h) [] [] 5
    rfl rfl rfl

end UrbanPy
